import Mathlib

/-!
Verification of the pyss3 SS3 classification server (`pyss3/server.py`).

The development is a shallow embedding of `server.py`: Python strings are
modelled as Lean `String` (a wrapper around `List Char`), sockets as the
list of strings successive `recv` calls return, the filesystem as a record
of total functions, and the classifier as a record of functions.  A Python
call that can raise is modelled with an explicit result type (`PyResult`);
a call that can block forever is modelled by the `blocked` constructor.
-/

set_option autoImplicit false

/-- Boolean test that the list `pat` is an initial segment of `l`
(model of Python `str.startswith` at the character-list level). -/
def startsL : List Char → List Char → Bool
  | [], _ => true
  | _ :: _, [] => false
  | c :: cs, d :: ds => c == d && startsL cs ds

/-- Fuel-driven scanner for Python `str.replace(old, new)`: scan left to
right, replacing non-overlapping occurrences of `old`, never rescanning the
replacement text.  Each step consumes at least one character, so any fuel of
at least the input length gives the total function; the fuel only makes the
recursion structural so that the kernel can evaluate it. -/
def replaceFuel (old new : List Char) : Nat → List Char → List Char
  | _, [] => []
  | 0, l => l
  | fu + 1, c :: rest =>
    if startsL old (c :: rest) && !old.isEmpty then
      new ++ replaceFuel old new fu ((c :: rest).drop old.length)
    else
      c :: replaceFuel old new fu rest

/-- Model of Python `str.replace(old, new)` on character lists.  (With
`old = ""` Python would inject `new` everywhere; the server only ever
replaces non-empty patterns, and the scanner keeps that guard.) -/
def replaceL (old new l : List Char) : List Char := replaceFuel old new l.length l

/-- Model of Python `str.replace` on strings. -/
def sReplace (s old new : String) : String := ⟨replaceL old.data new.data s.data⟩

/-- Fuel-driven scanner for `str.split(sep)` with a non-empty separator:
`acc` holds the (reversed) characters of the current field.  Fuel of at
least the input length suffices (each step consumes a character). -/
def splitOnFuel (sep : List Char) : Nat → List Char → List Char → List (List Char)
  | _, [], acc => [acc.reverse]
  | 0, l, acc => [acc.reverse ++ l]
  | fu + 1, c :: rest, acc =>
    if startsL sep (c :: rest) && !sep.isEmpty then
      acc.reverse :: splitOnFuel sep fu ((c :: rest).drop sep.length) []
    else
      splitOnFuel sep fu rest (c :: acc)

/-- Model of Python `str.split(sep)` for a non-empty separator. -/
def sSplitOn (s sep : String) : List String :=
  (splitOnFuel sep.data s.data.length s.data []).map (fun l => ⟨l⟩)

/-- Boolean substring test (model of Python `sub in s` at list level). -/
def containsL (sub : List Char) : List Char → Bool
  | [] => sub.isEmpty
  | c :: rest => startsL sub (c :: rest) || containsL sub rest

/-- Model of Python `sub in s` for strings. -/
def sContains (s sub : String) : Bool := containsL sub.data s.data

/-- Model of Python `s.startswith(pre)`. -/
def sStartsWith (s pre : String) : Bool := startsL pre.data s.data

/-- Model of Python slicing `s[n:]`. -/
def sDrop (s : String) (n : Nat) : String := ⟨s.data.drop n⟩

/-- Model of Python slicing `s[:n]`. -/
def sTake (s : String) (n : Nat) : String := ⟨s.data.take n⟩

/-- Concatenation of a list of strings (used to state multi-read reassembly). -/
def sJoinAll (l : List String) : String := ⟨(l.map String.data).flatten⟩

/-- Hexadecimal digit characters (lowercase), used for decimal digits too. -/
def hexDigit (n : Nat) : Char := "0123456789abcdef".data.getD n '0'

/-- Numeric value of a decimal digit run. -/
def digitsToNat (ds : List Char) : Nat :=
  ds.foldl (fun a c => a * 10 + (c.toNat - '0'.toNat)) 0

/-- Accumulator-style decimal printing of a natural number; the fuel makes
the recursion structural (fuel `n + 1` always suffices since the argument
shrinks by a factor of ten each step). -/
def natReprFuel : Nat → Nat → List Char → List Char
  | 0, n, acc => hexDigit n :: acc
  | fu + 1, n, acc =>
    if n < 10 then hexDigit n :: acc else natReprFuel fu (n / 10) (hexDigit (n % 10) :: acc)

/-- Model of Python `str(n)` / `"%d" % n` for a natural number. -/
def natRepr (n : Nat) : String := ⟨natReprFuel n n []⟩

/-- Model of Python `int(s)` restricted to optionally-signed digit strings
(`int()` whitespace and underscore tolerance is not exercised by the server,
whose line locators are produced with `"%d"`). -/
def parsePyInt (s : String) : Option Int :=
  match s.data with
  | '-' :: ds => if !ds.isEmpty && ds.all Char.isDigit then some (-(digitsToNat ds : Int)) else none
  | '+' :: ds => if !ds.isEmpty && ds.all Char.isDigit then some (digitsToNat ds) else none
  | ds => if !ds.isEmpty && ds.all Char.isDigit then some (digitsToNat ds) else none

/-! ## Static resource resolver (`parse_and_sanitize` and helpers) -/

/-- Model of `posixpath.split`: cut at the last `/`; the head keeps no
trailing slashes unless it consists only of slashes. -/
def posixSplit (p : String) : String × String :=
  let l := p.data
  let tl := (l.reverse.takeWhile (fun c => !(c == '/'))).reverse
  let hd := l.take (l.length - tl.length)
  let hd :=
    if !hd.isEmpty && !(hd.all (fun c => c == '/')) then
      (hd.reverse.dropWhile (fun c => c == '/')).reverse
    else hd
  (⟨hd⟩, ⟨tl⟩)

/-- Index of the last occurrence of `c` in `l`, if any. -/
def lastIndexOf (c : Char) (l : List Char) : Option Nat :=
  match l.reverse.findIdx? (fun x => x == c) with
  | none => none
  | some j => some (l.length - 1 - j)

/-- Model of `posixpath.splitext`: split off the extension at the last dot,
provided the dot lies after the last slash and the base name is not made of
dots only. -/
def posixSplitext (p : String) : String × String :=
  let l := p.data
  match lastIndexOf '.' l with
  | none => (p, "")
  | some d =>
    let f : Nat := match lastIndexOf '/' l with | none => 0 | some s2 => s2 + 1
    let sepOk : Bool := match lastIndexOf '/' l with | none => true | some s2 => decide (s2 < d)
    if sepOk && ((l.drop f).take (d - f)).any (fun c => !(c == '.')) then
      (⟨l.take d⟩, ⟨l.drop d⟩)
    else (p, "")

/-- Model of `posixpath.join` for two components. -/
def posixJoin (a b : String) : String :=
  if b.data.head? = some '/' then b
  else if a.data.isEmpty || a.data.getLast? = some '/' then ⟨a.data ++ b.data⟩
  else ⟨a.data ++ '/' :: b.data⟩

/-- Base directory of the bundled static web UI.  In the source this is
`path.join(path.dirname(__file__), "resources/visual_classifier")`; the
directory prefix is fixed at process start, and we model it with a concrete
absolute path. -/
def BASE_PATH : String := "/pyss3/resources/visual_classifier"

/-- Extension-to-MIME-type table `CONTET_TYPE` (name kept from the source). -/
def CONTET_TYPE : List (String × String) :=
  [("html", "text/html"), ("css", "text/css"), ("js", "application/javascript"),
   ("png", "image/png"), ("json", "application/json"),
   ("ico", "image/vnd.microsoft.icon"), ("_other_", "application/octet-stream")]

/-- Model of `content_type`: look the extension up, defaulting to the
`_other_` entry. -/
def content_type (ext : String) : String :=
  match CONTET_TYPE.lookup ext with
  | some v => v
  | none => (CONTET_TYPE.lookup "_other_").getD ""

/-- Model of `parse_and_sanitize`: split the URL path, default the file name
to `index.html`, delete `.` and collapse `//` in the directory part, drop the
first character of the rejoined path and join the remainder onto `BASE_PATH`. -/
def parse_and_sanitize (rsc_path : String) : String × String :=
  let dir := (posixSplit rsc_path).1
  let file0 := (posixSplit rsc_path).2
  let file := if file0 = "" then "index.html" else file0
  let ext := sDrop (posixSplitext file).2 1
  let cleaned := sReplace (sReplace dir "." "") "//" "/"
  let rsc := sDrop (posixJoin cleaned file) 1
  (posixJoin BASE_PATH rsc, ext)

/-! ## ASCII and UTF-8 byte-length accounting -/

/-- Every character of the list is ASCII (code point below 128). -/
abbrev AllAscii (l : List Char) : Prop := ∀ c ∈ l, c.toNat < 128

/-- Number of bytes of the UTF-8 encoding of one character. -/
def charUtf8Len (c : Char) : Nat :=
  if c.toNat < 128 then 1 else if c.toNat < 2048 then 2 else if c.toNat < 65536 then 3 else 4

/-- UTF-8 byte length of a character list. -/
def utf8LenL (l : List Char) : Nat := (l.map charUtf8Len).sum

/-- Model of `len(s.encode("utf-8"))`: the UTF-8 byte length of a string. -/
def utf8Len (s : String) : Nat := utf8LenL s.data

theorem allAscii_cons {c : Char} {l : List Char} (hc : c.toNat < 128) (hl : AllAscii l) :
    AllAscii (c :: l) := by
  intro d hd
  rcases List.mem_cons.mp hd with h | h
  · exact h ▸ hc
  · exact hl d h

theorem allAscii_append {a b : List Char} (ha : AllAscii a) (hb : AllAscii b) :
    AllAscii (a ++ b) := by
  intro d hd
  rcases List.mem_append.mp hd with h | h
  · exact ha d h
  · exact hb d h

theorem allAscii_flatten {L : List (List Char)} (h : ∀ x ∈ L, AllAscii x) :
    AllAscii L.flatten := by
  intro d hd
  rcases List.mem_flatten.mp hd with ⟨x, hx, hdx⟩
  exact h x hx d hdx

theorem utf8LenL_eq_length {l : List Char} (h : AllAscii l) : utf8LenL l = l.length := by
  induction l with
  | nil => rfl
  | cons c rest ih =>
    have hc : charUtf8Len c = 1 := by
      unfold charUtf8Len
      rw [if_pos (h c (List.mem_cons_self c rest))]
    have hrest : AllAscii rest := fun d hd => h d (List.mem_cons_of_mem c hd)
    have hr := ih hrest
    simp only [utf8LenL, List.map_cons, List.sum_cons, List.length_cons] at hr ⊢
    omega

theorem getD_ascii (l : List Char) (d : Char) (hl : AllAscii l) (hd : d.toNat < 128) :
    ∀ n, (l.getD n d).toNat < 128 := by
  induction l with
  | nil => intro n; simpa [List.getD] using hd
  | cons c rest ih =>
    intro n
    cases n with
    | zero => exact hl c (List.mem_cons_self c rest)
    | succ m =>
      exact ih (fun x hx => hl x (List.mem_cons_of_mem c hx)) m

theorem hexDigit_ascii (n : Nat) : (hexDigit n).toNat < 128 :=
  getD_ascii _ _ (by decide) (by decide) n

theorem natReprFuel_ascii : ∀ (fu n : Nat) (acc : List Char),
    AllAscii acc → AllAscii (natReprFuel fu n acc) := by
  intro fu
  induction fu with
  | zero => intro n acc hacc; exact allAscii_cons (hexDigit_ascii n) hacc
  | succ fu ih =>
    intro n acc hacc
    unfold natReprFuel
    by_cases h : n < 10
    · rw [if_pos h]; exact allAscii_cons (hexDigit_ascii n) hacc
    · rw [if_neg h]; exact ih _ _ (allAscii_cons (hexDigit_ascii (n % 10)) hacc)

theorem natRepr_ascii (n : Nat) : AllAscii (natRepr n).data :=
  natReprFuel_ascii n n [] (by intro c hc; cases hc)

/-- Model of Python `str(i)` for integers. -/
def intRepr (i : Int) : String :=
  if i < 0 then ⟨'-' :: (natRepr (-i).toNat).data⟩ else natRepr i.toNat

theorem intRepr_ascii (i : Int) : AllAscii (intRepr i).data := by
  unfold intRepr
  by_cases h : i < 0
  · rw [if_pos h]; exact allAscii_cons (by decide) (natRepr_ascii _)
  · rw [if_neg h]; exact natRepr_ascii _

/-! ## JSON values and `json.dumps` -/

mutual
inductive PyJson : Type where
  | jstr : String → PyJson
  | jint : Int → PyJson
  | jbool : Bool → PyJson
  | jnull : PyJson
  | jarr : PyJsonArr → PyJson
  | jobj : PyJsonObj → PyJson
inductive PyJsonArr : Type where
  | anil : PyJsonArr
  | acons : PyJson → PyJsonArr → PyJsonArr
inductive PyJsonObj : Type where
  | onil : PyJsonObj
  | ocons : String → PyJson → PyJsonObj → PyJsonObj
end

/-- Four lowercase hexadecimal digits (for `\uXXXX` escapes). -/
def hex4 (n : Nat) : List Char :=
  [hexDigit (n / 4096 % 16), hexDigit (n / 256 % 16), hexDigit (n / 16 % 16), hexDigit (n % 16)]

/-- Model of the per-character escaping of `json.dumps` with the default
`ensure_ascii=True`: printable ASCII except quote and backslash is literal,
the short escapes cover the usual control characters, anything else becomes
`\uXXXX` (a surrogate pair above U+FFFF). -/
def jsonEscapeChar (c : Char) : List Char :=
  if c = '"' then ['\\', '"']
  else if c = '\\' then ['\\', '\\']
  else if c = '\n' then ['\\', 'n']
  else if c = '\r' then ['\\', 'r']
  else if c = '\t' then ['\\', 't']
  else if c.toNat = 8 then ['\\', 'b']
  else if c.toNat = 12 then ['\\', 'f']
  else if 32 ≤ c.toNat ∧ c.toNat ≤ 126 then [c]
  else if c.toNat < 65536 then '\\' :: 'u' :: hex4 c.toNat
  else
    ('\\' :: 'u' :: hex4 (55296 + (c.toNat - 65536) / 1024)) ++
      ('\\' :: 'u' :: hex4 (56320 + (c.toNat - 65536) % 1024))

/-- Model of `json.dumps` on a Python string (quotes plus escaped body). -/
def encodeStringAscii (s : String) : String :=
  ⟨'"' :: (s.data.map jsonEscapeChar).flatten ++ ['"']⟩

mutual
/-- Model of `json.dumps` with default arguments (`ensure_ascii=True`,
separators `", "` and `": "`).  Numeric values are modelled as integers;
Python float `repr` output is likewise pure ASCII. -/
def dumps : PyJson → String
  | .jstr s => encodeStringAscii s
  | .jint n => intRepr n
  | .jbool b => if b then "true" else "false"
  | .jnull => "null"
  | .jarr a => ⟨'[' :: (dumpsArr a).data ++ [']']⟩
  | .jobj o => ⟨'\x7b' :: (dumpsObj o).data ++ ['\x7d']⟩
/-- Comma-separated rendering of a JSON array body. -/
def dumpsArr : PyJsonArr → String
  | .anil => ""
  | .acons x .anil => dumps x
  | .acons x (.acons y tl) =>
    ⟨(dumps x).data ++ ',' :: ' ' :: (dumpsArr (.acons y tl)).data⟩
/-- Comma-separated rendering of a JSON object body. -/
def dumpsObj : PyJsonObj → String
  | .onil => ""
  | .ocons k v .onil => ⟨(encodeStringAscii k).data ++ ':' :: ' ' :: (dumps v).data⟩
  | .ocons k v (.ocons k2 v2 tl) =>
    ⟨(encodeStringAscii k).data ++ ':' :: ' ' :: (dumps v).data ++
      ',' :: ' ' :: (dumpsObj (.ocons k2 v2 tl)).data⟩
end

theorem hex4_ascii (n : Nat) : AllAscii (hex4 n) := by
  intro c hc
  simp only [hex4, List.mem_cons] at hc
  rcases hc with h | h | h | h | h
  · exact h ▸ hexDigit_ascii _
  · exact h ▸ hexDigit_ascii _
  · exact h ▸ hexDigit_ascii _
  · exact h ▸ hexDigit_ascii _
  · cases h

theorem jsonEscapeChar_ascii (c : Char) : AllAscii (jsonEscapeChar c) := by
  unfold jsonEscapeChar
  split_ifs with h1 h2 h3 h4 h5 h6 h7 h8 h9
  · decide
  · decide
  · decide
  · decide
  · decide
  · decide
  · decide
  · intro d hd
    rcases List.mem_cons.mp hd with he | he
    · subst he; omega
    · cases he
  · exact allAscii_cons (by decide) (allAscii_cons (by decide) (hex4_ascii _))
  · exact allAscii_append
      (allAscii_cons (by decide) (allAscii_cons (by decide) (hex4_ascii _)))
      (allAscii_cons (by decide) (allAscii_cons (by decide) (hex4_ascii _)))

theorem encodeStringAscii_ascii (s : String) : AllAscii (encodeStringAscii s).data := by
  show AllAscii ('"' :: (s.data.map jsonEscapeChar).flatten ++ ['"'])
  exact allAscii_cons (by decide)
    (allAscii_append
      (allAscii_flatten (by
        intro x hx
        rcases List.mem_map.mp hx with ⟨c, _, hcx⟩
        exact hcx ▸ jsonEscapeChar_ascii c))
      (by decide))

mutual
theorem dumps_ascii : (j : PyJson) → AllAscii (dumps j).data
  | .jstr s => encodeStringAscii_ascii s
  | .jint n => intRepr_ascii n
  | .jbool b => by
    cases b
    · show AllAscii "false".data
      decide
    · show AllAscii "true".data
      decide
  | .jnull => by
    show AllAscii "null".data
    decide
  | .jarr a => by
    show AllAscii ('[' :: ((dumpsArr a).data ++ [']']))
    exact allAscii_cons (by decide) (allAscii_append (dumpsArr_ascii a) (by decide))
  | .jobj o => by
    show AllAscii ('\x7b' :: ((dumpsObj o).data ++ ['\x7d']))
    exact allAscii_cons (by decide) (allAscii_append (dumpsObj_ascii o) (by decide))
theorem dumpsArr_ascii : (a : PyJsonArr) → AllAscii (dumpsArr a).data
  | .anil => by intro c hc; cases hc
  | .acons x .anil => dumps_ascii x
  | .acons x (.acons y tl) => by
    show AllAscii ((dumps x).data ++ ',' :: ' ' :: (dumpsArr (.acons y tl)).data)
    exact allAscii_append (dumps_ascii x)
      (allAscii_cons (by decide) (allAscii_cons (by decide) (dumpsArr_ascii (.acons y tl))))
theorem dumpsObj_ascii : (o : PyJsonObj) → AllAscii (dumpsObj o).data
  | .onil => by intro c hc; cases hc
  | .ocons k v .onil => by
    show AllAscii ((encodeStringAscii k).data ++ ':' :: ' ' :: (dumps v).data)
    exact allAscii_append (encodeStringAscii_ascii k)
      (allAscii_cons (by decide) (allAscii_cons (by decide) (dumps_ascii v)))
  | .ocons k v (.ocons k2 v2 tl) => by
    show AllAscii (((encodeStringAscii k).data ++ ':' :: ' ' :: (dumps v).data) ++
      ',' :: ' ' :: (dumpsObj (.ocons k2 v2 tl)).data)
    exact allAscii_append
      (allAscii_append (encodeStringAscii_ascii k)
        (allAscii_cons (by decide) (allAscii_cons (by decide) (dumps_ascii v))))
      (allAscii_cons (by decide) (allAscii_cons (by decide)
        (dumpsObj_ascii (.ocons k2 v2 tl))))
end

/-! ## HTTP response serialization -/

/-- The `HTTP_RESPONSE` header template of the source, with the content type
and content length substituted for `%s` and `%d`. -/
def HTTP_RESPONSE (ct : String) (n : Nat) : String :=
  "HTTP/1.1 200 OK\r\nConnection: close\r\nAccess-Control-Allow-Origin: *\r\nServer: SS3\r\nContent-type: " ++
    ct ++ "\r\nContent-length: " ++ natRepr n ++ "\r\n\r\n"

/-- The fixed `HTTP_404` response of the source. -/
def HTTP_404 : String :=
  "HTTP/1.1 404 Not Found\r\nConnection: close\r\nServer: SS3\r\nContent-length: 0\r\n\r\n"

/-- Model of `Server.__send_as_json__`: serialize to JSON text, send the
header built with the character count of the JSON text (`len(data)`), then
send the UTF-8-encoded body.  The two `sock.send` payloads are returned in
order; byte lengths of payloads are measured by `utf8Len`. -/
def send_as_json (data : PyJson) : List String :=
  [HTTP_RESPONSE (content_type "json") (dumps data).data.length, dumps data]

/-! ## Python-style results -/

/-- Result of running a piece of Python code: a value, a raised exception
(identified by a name or message), or blocking forever on the socket. -/
inductive PyResult (α : Type) : Type where
  | ok : α → PyResult α
  | raised : String → PyResult α
  | blocked : PyResult α
deriving DecidableEq

/-! ## URL percent-decoding -/

/-- Value of one hexadecimal digit character, if it is one. -/
def hexVal (c : Char) : Option Nat :=
  if '0'.toNat ≤ c.toNat ∧ c.toNat ≤ '9'.toNat then some (c.toNat - '0'.toNat)
  else if 'a'.toNat ≤ c.toNat ∧ c.toNat ≤ 'f'.toNat then some (c.toNat - 'a'.toNat + 10)
  else if 'A'.toNat ≤ c.toNat ∧ c.toNat ≤ 'F'.toNat then some (c.toNat - 'A'.toNat + 10)
  else none

/-- Percent-decoding scanner: a `%` followed by two hex digits becomes the
character with that code value, anything else is copied through. -/
def pctDecode : List Char → List Char
  | [] => []
  | '%' :: a :: b :: rest =>
    match hexVal a, hexVal b with
    | some x, some y => Char.ofNat (16 * x + y) :: pctDecode rest
    | _, _ => '%' :: pctDecode (a :: b :: rest)
  | c :: rest => c :: pctDecode rest

/-- Model of `urllib`'s `unquote` (an external library function): `%XX` hex
escapes are decoded to the character with that code value; reassembly of
multi-byte UTF-8 sequences from consecutive escaped bytes is not modelled.
No theorem below depends on the decoded text itself. -/
def url_decode (s : String) : String := ⟨pctDecode s.data⟩

/-! ## HTTP request parsing (`get_http_*`) -/

/-- Model of `get_http_path`: second space-separated token of the first
line; a missing token is an `IndexError`. -/
def get_http_path (data : String) : PyResult String :=
  match (sSplitOn ((sSplitOn data "\n").getD 0 "") " ").get? 1 with
  | some p => .ok p
  | none => .raised "IndexError"

/-- Model of `get_http_body`: the second field of the split on the blank
line; `none` models the `IndexError` when there is no blank line. -/
def get_http_body (data : String) : Option String :=
  (sSplitOn data "\r\n\r\n").get? 1

/-- Case-insensitive literal matcher: consume `pat` from the front of the
input (Python `re.IGNORECASE`), returning the rest. -/
def ciEat : List Char → List Char → Option (List Char)
  | [], s => some s
  | _ :: _, [] => none
  | p :: ps, c :: cs => if c.toLower == p.toLower then ciEat ps cs else none

/-- The characters matched by the regex class `\s` (ASCII part; the server
only ever faces ASCII header whitespace). -/
def isPySpace (c : Char) : Bool :=
  c == ' ' || c == '\t' || c == '\n' || c == '\x0b' || c == '\x0c' || c == '\r'

/-- Try to match the regex `Content-length\s*:\s*(\d+)` (case-insensitive)
anchored at the head of the list, returning the numeric group. -/
def clMatchAt (l : List Char) : Option Nat :=
  match ciEat "content-length".data l with
  | none => none
  | some r =>
    match r.dropWhile isPySpace with
    | ':' :: r2 =>
      let ds := (r2.dropWhile isPySpace).takeWhile Char.isDigit
      if ds.isEmpty then none else some (digitsToNat ds)
    | _ => none

/-- Scan for the first position where the Content-length pattern matches
(model of `re.search`). -/
def clSearch : List Char → Option Nat
  | [] => none
  | c :: rest =>
    match clMatchAt (c :: rest) with
    | some n => some n
    | none => clSearch rest

/-- Model of `get_http_contlength`: the matched number, or 0 when the
header is absent. -/
def get_http_contlength (data : String) : Nat :=
  (clSearch data.data).getD 0

/-! ## Sequential line reading (`readline`) -/

/-- Model of one Python `readline` call on the remaining file content:
returns the line (with its trailing newline, if any) and the rest. -/
def readlineL : List Char → List Char × List Char
  | [] => ([], [])
  | c :: rest =>
    if c = '\n' then ([c], rest)
    else (c :: (readlineL rest).1, (readlineL rest).2)

/-- Model of the `__do_get_doc__` line loop: read `n + 1` lines
sequentially and return the last one read. -/
def readN : List Char → Nat → List Char
  | l, 0 => (readlineL l).1
  | l, n + 1 => readN (readlineL l).2 n

theorem readlineL_length (l : List Char) :
    (readlineL l).1.length + (readlineL l).2.length = l.length := by
  induction l with
  | nil => rfl
  | cons c rest ih =>
    unfold readlineL
    by_cases h : c = '\n'
    · rw [if_pos h]; simp [Nat.add_comm]
    · rw [if_neg h]; simp only [List.length_cons]; omega

theorem readlineL_snd_lt (l : List Char) (h : l ≠ []) :
    (readlineL l).2.length < l.length := by
  have hlen := readlineL_length l
  rcases l with _ | ⟨c, rest⟩
  · exact absurd rfl h
  · have : 0 < (readlineL (c :: rest)).1.length := by
      unfold readlineL
      by_cases hc : c = '\n'
      · rw [if_pos hc]; simp
      · rw [if_neg hc]; simp
    omega

/-- Fuel-driven decomposition of file content into the lines successive
`readline` calls return; every step consumes at least one character, so
fuel of at least the content length suffices. -/
def pyLinesFuel : Nat → List Char → List (List Char)
  | _, [] => []
  | 0, l => [l]
  | fu + 1, c :: rest =>
    (readlineL (c :: rest)).1 :: pyLinesFuel fu (readlineL (c :: rest)).2

/-- Decomposition of a file's content into the sequence of lines that
successive `readline` calls return (model of `readlines`). -/
def pyLines (l : List Char) : List (List Char) := pyLinesFuel l.length l

theorem pyLinesFuel_irrel : ∀ (fu1 : Nat) (fu2 : Nat) (l : List Char),
    l.length ≤ fu1 → l.length ≤ fu2 → pyLinesFuel fu1 l = pyLinesFuel fu2 l := by
  intro fu1
  induction fu1 with
  | zero =>
    intro fu2 l h1 _
    have : l = [] := List.eq_nil_of_length_eq_zero (Nat.le_zero.mp h1)
    subst this
    cases fu2 <;> rfl
  | succ fu ih =>
    intro fu2 l h1 h2
    rcases l with _ | ⟨c, rest⟩
    · cases fu2 <;> rfl
    · rcases fu2 with _ | fu2
      · simp at h2
      · show (readlineL (c :: rest)).1 :: pyLinesFuel fu (readlineL (c :: rest)).2 =
          (readlineL (c :: rest)).1 :: pyLinesFuel fu2 (readlineL (c :: rest)).2
        have hlt := readlineL_snd_lt (c :: rest) (by simp)
        simp only [List.length_cons] at h1 h2 hlt
        rw [ih fu2 (readlineL (c :: rest)).2 (by omega) (by omega)]

theorem pyLines_cons (c : Char) (rest : List Char) :
    pyLines (c :: rest) = (readlineL (c :: rest)).1 :: pyLines (readlineL (c :: rest)).2 := by
  show pyLinesFuel (rest.length + 1) (c :: rest) = _
  have hlt := readlineL_snd_lt (c :: rest) (by simp)
  simp only [List.length_cons] at hlt
  show (readlineL (c :: rest)).1 :: pyLinesFuel rest.length (readlineL (c :: rest)).2 = _
  rw [pyLinesFuel_irrel rest.length (readlineL (c :: rest)).2.length (readlineL (c :: rest)).2
    (by omega) (by omega)]
  rfl

/-! ## Server state, classifier and filesystem models -/

/-- One category's record in the Test Corpus Index: the three parallel
sequences `path`, `file` and `clf_result`. -/
structure CatRecord : Type where
  path : List String
  file : List String
  clf_result : List Nat
deriving DecidableEq

/-- The mutable server state touched by the claims: the Test Corpus Index
(`Server.__docs__`, an insertion-ordered dictionary modelled as an
association list) and the in-memory Document Array (`Server.__x_test__`). -/
structure ServerState : Type where
  docs : List (String × CatRecord)
  x_test : Option (List String)
deriving DecidableEq

/-- The attached classifier (an external collaborator): `classify` returns
the ranked (category-index, confidence) pairs used by the test-set
builders, `classifyJson` models `classify(doc, json=True)` (which may raise,
modelled by `Except`), plus the metadata getters. -/
structure ClfModel : Type where
  classify : String → List (Nat × Nat)
  classifyJson : String → Except String PyJson
  name : String
  hps : PyJson
  categories : List String

/-- The filesystem (an external collaborator), as total functions. -/
structure FS : Type where
  pathExists : String → Bool
  read : String → String
  listdir : String → List String
  isfile : String → Bool

/-- Model of Python list indexing `xs[i]` (negative indices wrap; out of
range is an `IndexError`, modelled as `none`). -/
def pyIndex {α : Type} (xs : List α) (i : Int) : Option α :=
  let n : Int := xs.length
  let j := if i < 0 then i + n else i
  if 0 ≤ j ∧ j < n then xs.get? j.toNat else none

/-! ## Request handlers -/

/-- Model of `__do_ack__`: an empty 200 response (the content type lookup
of `''` falls back to the `_other_` entry). -/
def do_ack : List String := [HTTP_RESPONSE (content_type "") 0]

/-- Model of `__do_classify__`: log the document prefix, classify, and send
the result as JSON; any exception from the classifier is caught and logged
(`except Exception`), in which case nothing is sent.  Returns the sent
payloads and the log lines. -/
def do_classify (clf : ClfModel) (doc : String) : List String × List String :=
  match clf.classifyJson doc with
  | .ok r =>
    (send_as_json r, ["\t" ++ sTake doc 50 ++ "[...]", "sending classification result..."])
  | .error e =>
    ([], ["\t" ++ sTake doc 50 ++ "[...]", "ERROR: " ++ e])

/-- JSON array of strings. -/
def strListToArr : List String → PyJsonArr
  | [] => .anil
  | s :: rest => .acons (.jstr s) (strListToArr rest)

/-- JSON array of integers. -/
def natListToArr : List Nat → PyJsonArr
  | [] => .anil
  | n :: rest => .acons (.jint n) (natListToArr rest)

/-- JSON rendering of one category record (field insertion order in the
live dictionary depends on the builder; a fixed order is used here and no
claim inspects it). -/
def catRecordToObj (r : CatRecord) : PyJson :=
  .jobj (.ocons "path" (.jarr (strListToArr r.path))
    (.ocons "file" (.jarr (strListToArr r.file))
      (.ocons "clf_result" (.jarr (natListToArr r.clf_result)) .onil)))

/-- JSON rendering of the Test Corpus Index. -/
def docsToObj : List (String × CatRecord) → PyJsonObj
  | [] => .onil
  | (c, r) :: rest => .ocons c (catRecordToObj r) (docsToObj rest)

/-- Model of `__do_get_info__`: send the model name, hyperparameters,
category names plus the `"[unknown]"` sentinel, and the current index. -/
def do_get_info (clf : ClfModel) (st : ServerState) : List String :=
  send_as_json (.jobj (.ocons "model_name" (.jstr clf.name)
    (.ocons "hps" clf.hps
      (.ocons "categories" (.jarr (strListToArr (clf.categories ++ ["[unknown]"])))
        (.ocons "docs" (.jobj (docsToObj st.docs)) .onil)))))

/-- Model of `__do_get_doc__`: resolve a document locator (checked in the
order `:line:`, `:x_test:`, plain path) and send its text as JSON. -/
def do_get_doc (fs : FS) (st : ServerState) (file : String) : PyResult (List String) :=
  if sContains file ":line:" then
    match sSplitOn file ":line:" with
    | [f, ln] =>
      match parsePyInt ln with
      | none => .raised "ValueError"
      | some n =>
        if fs.pathExists f then
          .ok (send_as_json (.jobj (.ocons "content" (.jstr ⟨readN (fs.read f).data n.toNat⟩) .onil)))
        else .raised "IOError"
    | _ => .raised "ValueError"
  else if sContains file ":x_test:" then
    match st.x_test with
    | some xs =>
      if !xs.isEmpty then
        match (sSplitOn file ":x_test:").get? 1 with
        | none => .raised "IndexError"
        | some idxs =>
          match parsePyInt idxs with
          | none => .raised "ValueError"
          | some i =>
            match pyIndex xs i with
            | none => .raised "IndexError"
            | some doc => .ok (send_as_json (.jobj (.ocons "content" (.jstr doc) .onil)))
      else .ok (send_as_json (.jobj (.ocons "content" (.jstr "") .onil)))
    | none => .ok (send_as_json (.jobj (.ocons "content" (.jstr "") .onil)))
  else
    if fs.pathExists file then
      .ok (send_as_json (.jobj (.ocons "content" (.jstr (fs.read file)) .onil)))
    else .raised "IOError"

/-! ## Body reassembly (`__recvall_body__`) -/

/-- The `while len(body) < length` loop of `__recvall_body__`: keep
appending the next `recv` result; running out of reads models blocking
forever on the socket. -/
def recvall_loop (body : String) (chunks : List String) (glen : Nat) : Option String :=
  if body.data.length < glen then
    match chunks with
    | [] => none
    | c :: rest => recvall_loop ⟨body.data ++ c.data⟩ rest glen
  else some body

/-- Model of `__recvall_body__`: start from the body bytes captured in the
initial read, loop until the declared length is reached, then URL-decode. -/
def recvall_body (data : String) (chunks : List String) (glen : Nat) : PyResult String :=
  match get_http_body data with
  | none => .raised "IndexError"
  | some b0 =>
    match recvall_loop b0 chunks glen with
    | none => .blocked
    | some body => .ok (url_decode body)

/-! ## The request handler (`__handle_request__`) -/

/-- Model of `Server.__handle_request__`: `data` is the decoded text of the
initial `recv` (empty bytes decode to the empty string), `chunks` the texts
of any further `recv` calls.  The handler never writes server state, which
the returned state makes explicit.  The result lists the payloads written
to the socket, in order. -/
def handle_request (fs : FS) (clf : ClfModel) (st : ServerState) (data : String)
    (chunks : List String) : ServerState × PyResult (List String) :=
  if data = "" then (st, .ok []) else
  match get_http_path data with
  | .raised e => (st, .raised e)
  | .blocked => (st, .blocked)
  | .ok rsc_path =>
    if sStartsWith data "POST" then
      let method := sDrop rsc_path 1
      match recvall_body data chunks (get_http_contlength data) with
      | .raised e => (st, .raised e)
      | .blocked => (st, .blocked)
      | .ok body =>
        if method = "ack" then (st, .ok do_ack)
        else if method = "classify" then (st, .ok (do_classify clf body).1)
        else if method = "get_info" then (st, .ok (do_get_info clf st))
        else if method = "get_doc" then (st, do_get_doc fs st body)
        else (st, .ok [])
    else
      let lp := parse_and_sanitize rsc_path
      if fs.pathExists lp.1 then
        (st, .ok [HTTP_RESPONSE (content_type lp.2) (utf8Len (fs.read lp.1)), fs.read lp.1])
      else
        (st, .ok [HTTP_404])

/-! ## Test Corpus Index builders -/

/-- The value stored per document by the builders:
`r[0][0] if r[0][1] else unkwon_cat_i`, raising `IndexError` when the
classifier returns an empty ranking. -/
def clfTop (clf : ClfModel) (doc : String) : Except String Nat :=
  match clf.classify doc with
  | [] => .error "IndexError"
  | (c, conf) :: _ => .ok (if conf ≠ 0 then c else clf.categories.length)

/-- Total companion of `clfTop` (value `0` in the impossible empty case),
used to state what a successful build contains. -/
def clfTopD (clf : ClfModel) (doc : String) : Nat :=
  match clf.classify doc with
  | [] => 0
  | (c, conf) :: _ => if conf ≠ 0 then c else clf.categories.length

theorem clfTop_ok_eq {clf : ClfModel} {doc : String} {v : Nat}
    (h : clfTop clf doc = .ok v) : v = clfTopD clf doc := by
  unfold clfTop clfTopD at *
  rcases hr : clf.classify doc with _ | ⟨⟨c, conf⟩, tl⟩ <;> rw [hr] at h
  · cases h
  · cases h; rfl

/-- Model of iterating over `set(y_test)`: deduplication (iteration order of
a Python set is implementation-defined; first-occurrence order is used here,
and no claim depends on the order). -/
def pySet (l : List String) : List String :=
  l.foldl (fun acc c => if c ∈ acc then acc else acc ++ [c]) []

/-- Update the record of category `cat` in the index (the first matching
entry of the association list).  A missing category is created with an
empty record, mirroring `RecursiveDefaultDict` auto-vivification; in the
server every category is initialised before it is updated, so this branch
is never taken by the builders. -/
def updateCat (docs : List (String × CatRecord)) (cat : String) (f : CatRecord → CatRecord) :
    List (String × CatRecord) :=
  match docs with
  | [] => [(cat, f ⟨[], [], []⟩)]
  | (c, r) :: rest => if c = cat then (c, f r) :: rest else (c, r) :: updateCat rest cat f

/-- Assign a whole record to category `cat` (Python dict assignment:
replace in place, or append a new entry). -/
def setCat (docs : List (String × CatRecord)) (cat : String) (newRec : CatRecord) :
    List (String × CatRecord) :=
  match docs with
  | [] => [(cat, newRec)]
  | (c, r) :: rest => if c = cat then (c, newRec) :: rest else (c, r) :: setCat rest cat newRec

/-- The `for idoc, doc in enumerate(x_test)` loop of `set_testset`:
look the label up (an out-of-range index raises), append the display name
and locator, classify, append the result.  The returned state is the state
at normal completion or at the raise. -/
def stLoop (clf : ClfModel) (y_test : List String) :
    Nat → List String → List (String × CatRecord) → List (String × CatRecord) × Option String
  | _, [], docs => (docs, none)
  | idoc, doc :: rest, docs =>
    match y_test.get? idoc with
    | none => (docs, some "IndexError")
    | some cat =>
      let docs1 := updateCat docs cat (fun r => { r with file := r.file ++ ["doc_" ++ natRepr idoc] })
      let docs2 := updateCat docs1 cat (fun r => { r with path := r.path ++ [":x_test:" ++ natRepr idoc] })
      match clfTop clf doc with
      | .error e => (docs2, some e)
      | .ok v =>
        stLoop clf y_test (idoc + 1) rest
          (updateCat docs2 cat (fun r => { r with clf_result := r.clf_result ++ [v] }))

/-- Model of `Server.set_testset`: clear the test set, install `x_test`,
initialise an empty record per distinct label, then run the enumeration
loop.  No length check is performed.  The result is the new server state
together with the returned boolean (`len(docs) > 0`) or the raise. -/
def set_testset (clf : ClfModel) (x_test y_test : List String) :
    ServerState × PyResult Bool :=
  let docs0 := (pySet y_test).map (fun c => (c, (⟨[], [], []⟩ : CatRecord)))
  match stLoop clf y_test 0 x_test docs0 with
  | (docs, some e) => ({ docs := docs, x_test := some x_test }, .raised e)
  | (docs, none) => ({ docs := docs, x_test := some x_test }, .ok (decide (0 < docs.length)))

/-- Outcome of the test-set fragment of `Server.serve` (lines 413-418). -/
inductive ServeCheck : Type where
  | proceeded : Bool → ServeCheck
  | errorReturn : ServeCheck
  | skipped : ServeCheck
  | raisedS : String → ServeCheck
deriving DecidableEq

/-- Python truthiness of an optional list (`None` and `[]` are falsy). -/
def truthyList {α : Type} : Option (List α) → Bool
  | some (_ :: _) => true
  | _ => false

/-- Model of the `if x_test:` fragment of `Server.serve`: the length check
guards the call to `set_testset`; on mismatch an error is reported and
`serve` returns with the state untouched. -/
def serve_set_testset (clf : ClfModel) (st : ServerState) (x_test y_test : Option (List String)) :
    ServerState × ServeCheck :=
  if truthyList x_test then
    let xs := x_test.getD []
    let ys := y_test.getD []
    if truthyList y_test && decide (ys.length = xs.length) then
      match set_testset clf xs ys with
      | (st2, .ok b) => (st2, .proceeded b)
      | (st2, .raised e) => (st2, .raisedS e)
      | (st2, .blocked) => (st2, .raisedS "unreachable")
    else (st, .errorReturn)
  else (st, .skipped)

/-- Classify each line of a category file (the list comprehension of the
`folder_label=False` branch); the first classifier failure raises. -/
def mapClf (clf : ClfModel) : List (List Char) → Except String (List Nat)
  | [] => .ok []
  | l :: rest =>
    match clfTop clf ⟨l⟩ with
    | .error e => .error e
    | .ok v =>
      match mapClf clf rest with
      | .error e => .error e
      | .ok vs => .ok (v :: vs)

/-- The `folder_label=False` loop of `set_testset_from_files`: each regular
file directly inside `test_path` is one category (name = file stem); its
lines are the documents; the three sequences are assigned together after
the classification list succeeds. -/
def setFromFilesFalse (clf : ClfModel) (fs : FS) (test_path : String) :
    List String → List (String × CatRecord) → List (String × CatRecord) × Option String
  | [], docs => (docs, none)
  | f :: rest, docs =>
    let file_path := posixJoin test_path f
    if fs.isfile file_path then
      let cat := (posixSplitext f).1
      match mapClf clf (pyLines (fs.read file_path).data) with
      | .error e => (docs, some e)
      | .ok results =>
        let n := results.length
        let newRec : CatRecord :=
          { clf_result := results,
            file := (List.range n).map (fun i => "doc_" ++ natRepr i),
            path := (List.range n).map (fun i => file_path ++ ":line:" ++ natRepr i) }
        setFromFilesFalse clf fs test_path rest (setCat docs cat newRec)
    else setFromFilesFalse clf fs test_path rest docs

/-- The inner file loop of the `folder_label=True` branch: for each regular
file (in sorted order), append the locator and display name, classify the
file's contents, append the result. -/
def folderInner (clf : ClfModel) (fs : FS) (cat_path cat : String) :
    List String → List (String × CatRecord) → List (String × CatRecord) × Option String
  | [], docs => (docs, none)
  | f :: rest, docs =>
    let file_path := posixJoin cat_path f
    if fs.isfile file_path then
      let docs1 := updateCat docs cat (fun r => { r with path := r.path ++ [file_path] })
      let docs2 := updateCat docs1 cat (fun r => { r with file := r.file ++ [f] })
      match clfTop clf (fs.read file_path) with
      | .error e => (docs2, some e)
      | .ok v =>
        folderInner clf fs cat_path cat rest
          (updateCat docs2 cat (fun r => { r with clf_result := r.clf_result ++ [v] }))
    else folderInner clf fs cat_path cat rest docs

/-- Strict lexicographic comparison of strings by code points
(Python `<` on `str`), for `sorted`. -/
def strLtL : List Char → List Char → Bool
  | [], [] => false
  | [], _ :: _ => true
  | _ :: _, [] => false
  | c :: cs, d :: ds =>
    if c.toNat < d.toNat then true else if d.toNat < c.toNat then false else strLtL cs ds

/-- Insertion step of a stable insertion sort. -/
def insertStr (s : String) : List String → List String
  | [] => [s]
  | t :: rest => if strLtL s.data t.data then s :: t :: rest else t :: insertStr s rest

/-- Model of Python `sorted` on strings (stable, ascending). -/
def sortStrs : List String → List String
  | [] => []
  | s :: rest => insertStr s (sortStrs rest)

/-- The `folder_label=True` loop of `set_testset_from_files`: each
non-file entry of `test_path` is a category directory; its three sequences
are initialised empty and filled by the inner loop. -/
def setFromFilesTrue (clf : ClfModel) (fs : FS) (test_path : String) :
    List String → List (String × CatRecord) → List (String × CatRecord) × Option String
  | [], docs => (docs, none)
  | cat :: rest, docs =>
    let cat_path := posixJoin test_path cat
    if fs.isfile cat_path then setFromFilesTrue clf fs test_path rest docs
    else
      let docs1 := setCat docs cat ⟨[], [], []⟩
      match folderInner clf fs cat_path cat (sortStrs (fs.listdir cat_path)) docs1 with
      | (docs2, some e) => (docs2, some e)
      | (docs2, none) => setFromFilesTrue clf fs test_path rest docs2

/-- Model of `Server.set_testset_from_files`: clear the test set, then walk
the directory tree in the selected mode. -/
def set_testset_from_files (clf : ClfModel) (fs : FS) (test_path : String) (folder_label : Bool) :
    ServerState × PyResult Bool :=
  let res :=
    if folder_label then setFromFilesTrue clf fs test_path (fs.listdir test_path) []
    else setFromFilesFalse clf fs test_path (fs.listdir test_path) []
  match res with
  | (docs, some e) => ({ docs := docs, x_test := none }, .raised e)
  | (docs, none) => ({ docs := docs, x_test := none }, .ok (decide (0 < docs.length)))

/-! ## Connection dispatcher (`Server.serve` main loop) -/

/-- What one `__handle_request__` call does to its connection. -/
inductive HandleOutcome : Type where
  | okH : HandleOutcome
  | raiseH : String → HandleOutcome
deriving DecidableEq

/-- One readiness event of the `select` loop: the listening socket accepts
a connection, or a ready client socket gets its request handled. -/
inductive LoopEvent : Type where
  | accept : Nat → LoopEvent
  | ready : Nat → HandleOutcome → LoopEvent
deriving DecidableEq

/-- Dispatcher state: the watched client sockets, the sockets closed so
far, and whether the listening socket is still open. -/
structure DispState : Type where
  clients : List Nat
  closed : List Nat
  serverSocketOpen : Bool
deriving DecidableEq

/-- How a run of the serve loop ends on a finite event sequence. -/
inductive ServeResult : Type where
  | waiting : DispState → ServeResult
  | returned : DispState → ServeResult
  | crashed : String → DispState → ServeResult
deriving DecidableEq

/-- Model of the `try: while True: ...` loop of `Server.serve` over a
linearised sequence of readiness events.  Handling a request normally
removes and closes the socket; an exception raised inside the loop
propagates out of the `while`, where only `KeyboardInterrupt` is caught
(closing the listening socket and returning); any other exception escapes
`serve` (`crashed`).  An exhausted event list means the loop is still
blocked in `select` (`waiting`). -/
def serve_loop (st : DispState) : List LoopEvent → ServeResult
  | [] => .waiting st
  | .accept s :: rest => serve_loop { st with clients := st.clients ++ [s] } rest
  | .ready s o :: rest =>
    match o with
    | .okH =>
      serve_loop { st with clients := st.clients.erase s, closed := st.closed ++ [s] } rest
    | .raiseH e =>
      if e = "KeyboardInterrupt" then .returned { st with serverSocketOpen := false }
      else .crashed e st

/-! ## Concrete fixtures used by witnesses and counterexamples -/

/-- A concrete classifier: one confident category `0`; its JSON-mode
`classify` always raises (used to exercise the error path). -/
def clf0 : ClfModel :=
  { classify := fun _ => [(0, 1)], classifyJson := fun _ => .error "boom",
    name := "m", hps := .jnull, categories := ["A"] }

/-- A concrete filesystem with one three-line file `a.txt`. -/
def fs0 : FS :=
  { pathExists := fun p => p == "a.txt",
    read := fun p => if p == "a.txt" then "l0\nl1\nl2" else "",
    listdir := fun _ => [], isfile := fun _ => false }

/-- The empty server state (fresh `__docs__`, no `__x_test__`). -/
def st0 : ServerState := { docs := [], x_test := none }

/-! ## C1: path sanitization -/

/-- C1.  The spec's contract says `parse_and_sanitize` never resolves
outside `BASE_PATH`, even for adversarial input.  The code violates the
contract: for the GET path `///etc/passwd` the directory part collapses to
`//etc`, the rejoined path loses only one leading slash, and `path.join`
discards `BASE_PATH` entirely because its second argument is absolute.  The
result is `/etc/passwd`, which does not even start with `BASE_PATH`. -/
theorem C1_sanitize_escape :
    parse_and_sanitize "///etc/passwd" = ("/etc/passwd", "") ∧
    startsL BASE_PATH.data (parse_and_sanitize "///etc/passwd").1.data = false := by
  decide

/-! ## C2: length check for the in-memory test-set builder -/

/-- C2 counterexample.  `set_testset` itself performs no length check.
With one document and two labels (mismatched lengths) it completes
normally, returns `True`, and leaves a changed state; with two documents
and one label it raises `IndexError` after already clearing and partially
rebuilding the state.  Both contradict "reports an error and makes no
state change". -/
theorem C2_set_testset_unchecked :
    (set_testset clf0 ["d0"] ["A", "A"]).2 = .ok true ∧
    (set_testset clf0 ["d0"] ["A", "A"]).1 ≠ st0 ∧
    (set_testset clf0 ["d0", "d1"] ["A"]).2 = .raised "IndexError" ∧
    (set_testset clf0 ["d0", "d1"] ["A"]).1 ≠ st0 := by
  decide

/-- C2 (amended).  The length check lives in `serve`, not in
`set_testset`: when `serve` receives a non-empty `x_test` whose length
differs from `y_test` (including a missing or empty `y_test`), it reports
the error and returns before touching the Test Corpus Index or the
in-memory Document Array. -/
theorem C2_serve_length_guard (clf : ClfModel) (st : ServerState) (x0 : String)
    (xs ys : List String) (hlen : ys.length ≠ (x0 :: xs).length) :
    serve_set_testset clf st (some (x0 :: xs)) (some ys) = (st, .errorReturn) ∧
    serve_set_testset clf st (some (x0 :: xs)) none = (st, .errorReturn) := by
  constructor
  · rcases ys with _ | ⟨y0, ys'⟩
    · simp [serve_set_testset, truthyList]
    · have h2 : ys'.length ≠ xs.length := by
        intro hc
        apply hlen
        simp [hc]
      simp [serve_set_testset, truthyList, h2]
  · simp [serve_set_testset, truthyList]

/-- C2 witness: the guard fires at a concrete mismatched input. -/
theorem C2_serve_length_guard_witness :
    serve_set_testset clf0 st0 (some ["d"]) (some ["A", "B"]) = (st0, .errorReturn) :=
  (C2_serve_length_guard clf0 st0 "d" [] ["A", "B"] (by decide)).1

/-! ## C3: exception containment in the serve loop -/

/-- C3 counterexample.  A malformed request line makes
`__handle_request__` raise `IndexError` (first conjunct), and in the serve
loop that exception is *not* contained: the loop crashes at once, the
raising socket (1) is never closed (`closed` stays `[]`), and the later
ready socket (2) is never handled — contradicting "the dispatcher still
closes that socket and the serve loop keeps running". -/
theorem C3_crash_counterexample :
    (handle_request fs0 clf0 st0 "@@@\r\n\r\n" []).2 = .raised "IndexError" ∧
    serve_loop ⟨[1, 2], [], true⟩ [.ready 1 (.raiseH "IndexError"), .ready 2 .okH] =
      .crashed "IndexError" ⟨[1, 2], [], true⟩ := by
  constructor
  · decide
  · decide

/-- C3 (amended).  An exception raised while handling a request propagates
out of the `while` loop: the socket is not closed, later events are not
processed, and `serve` itself ends (crashing unless the exception is
`KeyboardInterrupt`, which the `except` clause catches, closing the
listening socket and returning normally). -/
theorem C3_exception_propagation (st : DispState) (s : Nat) (e : String)
    (rest : List LoopEvent) (he : e ≠ "KeyboardInterrupt") :
    serve_loop st (.ready s (.raiseH e) :: rest) = .crashed e st ∧
    serve_loop st (.ready s (.raiseH "KeyboardInterrupt") :: rest) =
      .returned { st with serverSocketOpen := false } := by
  constructor
  · show (if e = "KeyboardInterrupt" then _ else ServeResult.crashed e st) = _
    rw [if_neg he]
  · rfl

/-- C3 witness: a concrete `ValueError` crashes the loop; a concrete
`KeyboardInterrupt` returns it. -/
theorem C3_exception_propagation_witness :
    serve_loop ⟨[1], [], true⟩ [.ready 1 (.raiseH "ValueError")] =
      .crashed "ValueError" ⟨[1], [], true⟩ ∧
    serve_loop ⟨[1], [], true⟩ [.ready 1 (.raiseH "KeyboardInterrupt")] =
      .returned ⟨[1], [], false⟩ :=
  C3_exception_propagation ⟨[1], [], true⟩ 1 "ValueError" [] (by decide)

/-! ## C10: empty initial read -/

/-- C10.  When the initial `recv` yields no data, `__handle_request__`
returns at once: nothing is written, nothing is raised (the guard sits
before the request-line parsing that would raise), and the server state is
untouched. -/
theorem C10_empty_recv (fs : FS) (clf : ClfModel) (st : ServerState) (chunks : List String) :
    handle_request fs clf st "" chunks = (st, .ok []) := by
  unfold handle_request
  rw [if_pos rfl]

/-! ## C4: classifier exceptions during `classify` are contained -/

/-- C4.  When the attached classifier's `classify` raises on a document,
`__do_classify__` catches the exception: nothing is sent, the error text is
logged after the request log line, and — through `__handle_request__` — the
handler returns normally with no response bytes at all. -/
theorem C4_classify_exception_contained (fs : FS) (clf : ClfModel) (st : ServerState)
    (data : String) (chunks : List String) (p body e : String)
    (hclf : clf.classifyJson body = .error e) :
    (do_classify clf body).1 = [] ∧
    (do_classify clf body).2 = ["\t" ++ sTake body 50 ++ "[...]", "ERROR: " ++ e] ∧
    (sStartsWith data "POST" = true →
      get_http_path data = .ok p →
      sDrop p 1 = "classify" →
      recvall_body data chunks (get_http_contlength data) = .ok body →
      handle_request fs clf st data chunks = (st, .ok [])) := by
  refine ⟨?_, ?_, ?_⟩
  · unfold do_classify
    rw [hclf]
  · unfold do_classify
    rw [hclf]
  · intro hpost hpath hsd hrecv
    have hne : data ≠ "" := by
      intro hd
      subst hd
      simp [sStartsWith, startsL] at hpost
    simp [handle_request, hne, hpath, hpost, hrecv, hsd, do_classify, hclf]

/-- C4 witness: a concrete failing classifier on a concrete request. -/
theorem C4_classify_exception_contained_witness :
    (do_classify clf0 "doc").1 = [] ∧
    (do_classify clf0 "doc").2 = ["\t" ++ sTake "doc" 50 ++ "[...]", "ERROR: " ++ "boom"] ∧
    handle_request fs0 clf0 st0 "POST /classify HTTP/1.1\r\nContent-length: 3\r\n\r\ndoc" [] =
      (st0, .ok []) := by
  have h := C4_classify_exception_contained fs0 clf0 st0
    "POST /classify HTTP/1.1\r\nContent-length: 3\r\n\r\ndoc" [] "/classify" "doc" "boom"
    rfl
  exact ⟨h.1, h.2.1, h.2.2 (by decide) (by decide) (by decide) (by decide)⟩

/-! ## C5: body reassembly across socket reads -/

theorem recvall_loop_exact : ∀ (chunks : List String) (body : String) (glen : Nat),
    body.data.length + (sJoinAll chunks).data.length = glen →
    recvall_loop body chunks glen = some ⟨body.data ++ (sJoinAll chunks).data⟩ := by
  intro chunks
  induction chunks with
  | nil =>
    intro body glen h
    have hj : (sJoinAll ([] : List String)).data = [] := rfl
    rw [hj] at h ⊢
    simp only [List.length_nil, Nat.add_zero] at h
    unfold recvall_loop
    rw [if_neg (by omega)]
    rw [List.append_nil]
  | cons c rest ih =>
    intro body glen h
    have hj : (sJoinAll (c :: rest)).data = c.data ++ (sJoinAll rest).data := by
      simp [sJoinAll]
    rw [hj] at h ⊢
    unfold recvall_loop
    by_cases hlt : body.data.length < glen
    · rw [if_pos hlt]
      have h2 : (⟨body.data ++ c.data⟩ : String).data.length + (sJoinAll rest).data.length = glen := by
        show (body.data ++ c.data).length + _ = _
        simp only [List.length_append] at h ⊢
        omega
      show recvall_loop ⟨body.data ++ c.data⟩ rest glen = _
      rw [ih ⟨body.data ++ c.data⟩ glen h2]
      congr 1
      show (⟨(body.data ++ c.data) ++ (sJoinAll rest).data⟩ : String) = _
      rw [List.append_assoc]
    · rw [if_neg hlt]
      simp only [List.length_append] at h
      have hc : c.data = [] := List.eq_nil_of_length_eq_zero (by omega)
      have hr : (sJoinAll rest).data = [] := List.eq_nil_of_length_eq_zero (by omega)
      rw [hc, hr]
      rw [List.nil_append, List.append_nil]

/-- C5.  A POST body split across any number of socket reads whose
concatenated length equals the declared Content-Length is reassembled by
`__recvall_body__` into exactly the URL-decoded concatenation — the same
result as delivering the same bytes in one single read. -/
theorem C5_body_reassembly (data data' b0 : String) (chunks : List String) (glen : Nat)
    (h1 : get_http_body data = some b0)
    (h2 : get_http_body data' = some ⟨b0.data ++ (sJoinAll chunks).data⟩)
    (hL : b0.data.length + (sJoinAll chunks).data.length = glen) :
    recvall_body data chunks glen = .ok (url_decode ⟨b0.data ++ (sJoinAll chunks).data⟩) ∧
    recvall_body data' [] glen = recvall_body data chunks glen := by
  have hx : recvall_body data chunks glen =
      .ok (url_decode ⟨b0.data ++ (sJoinAll chunks).data⟩) := by
    unfold recvall_body
    rw [h1]
    show (match recvall_loop b0 chunks glen with
      | none => PyResult.blocked
      | some body => PyResult.ok (url_decode body)) = _
    rw [recvall_loop_exact chunks b0 glen hL]
  refine ⟨hx, ?_⟩
  rw [hx]
  unfold recvall_body
  rw [h2]
  have hfull : recvall_loop ⟨b0.data ++ (sJoinAll chunks).data⟩ [] glen =
      some ⟨b0.data ++ (sJoinAll chunks).data⟩ := by
    have h3 : (⟨b0.data ++ (sJoinAll chunks).data⟩ : String).data.length +
        (sJoinAll ([] : List String)).data.length = glen := by
      show (b0.data ++ (sJoinAll chunks).data).length + ([] : List Char).length = glen
      simp only [List.length_append, List.length_nil] at hL ⊢
      omega
    have h4 := recvall_loop_exact [] ⟨b0.data ++ (sJoinAll chunks).data⟩ glen h3
    rw [h4]
    congr 1
    show (⟨(b0.data ++ (sJoinAll chunks).data) ++ []⟩ : String) = _
    rw [List.append_nil]
  show (match recvall_loop ⟨b0.data ++ (sJoinAll chunks).data⟩ [] glen with
    | none => PyResult.blocked
    | some body => PyResult.ok (url_decode body)) = _
  rw [hfull]

/-- C5 witness: a 7-character body delivered in three pieces (2 + 4 + 1)
equals the single-read delivery. -/
theorem C5_body_reassembly_witness :
    recvall_body "POST /classify H\r\n\r\nab" ["c%20", "d"] 7 =
      .ok (url_decode ⟨("ab" : String).data ++ (sJoinAll ["c%20", "d"]).data⟩) ∧
    recvall_body "POST /classify H\r\n\r\nabc%20d" [] 7 =
      recvall_body "POST /classify H\r\n\r\nab" ["c%20", "d"] 7 :=
  C5_body_reassembly "POST /classify H\r\n\r\nab" "POST /classify H\r\n\r\nabc%20d" "ab"
    ["c%20", "d"] 7 (by decide) (by decide) (by decide)

/-! ## C8: shape of JSON responses -/

theorem startsL_append : ∀ (q p r : List Char), startsL q p = true → startsL q (p ++ r) = true
  | [], _, _, _ => rfl
  | c :: cs, [], _, h => by simp [startsL] at h
  | c :: cs, d :: ds, r, h => by
    simp only [startsL, Bool.and_eq_true, beq_iff_eq] at h
    simp only [List.cons_append, startsL, Bool.and_eq_true, beq_iff_eq]
    exact ⟨h.1, startsL_append cs ds r h.2⟩

/-- C8.  Every JSON response built by `__send_as_json__` consists of
exactly the header and the JSON body, where the header is the 200 template
with the JSON content type and a Content-Length equal to the UTF-8 byte
length of the body that is sent (the code inserts the character count
`len(data)`, which coincides with the byte count because `json.dumps`
escapes to pure ASCII), and the header text begins with the status line,
`Connection: close`, the CORS wildcard header, and the JSON content type. -/
theorem C8_json_response (j : PyJson) :
    send_as_json j = [HTTP_RESPONSE "application/json" (utf8Len (dumps j)), dumps j] ∧
    startsL ("HTTP/1.1 200 OK\r\nConnection: close\r\nAccess-Control-Allow-Origin: *\r\nServer: SS3\r\nContent-type: application/json\r\n").data
      (HTTP_RESPONSE "application/json" (utf8Len (dumps j))).data = true := by
  have hlen : (dumps j).data.length = utf8Len (dumps j) :=
    (utf8LenL_eq_length (dumps_ascii j)).symm
  constructor
  · show [HTTP_RESPONSE (content_type "json") (dumps j).data.length, dumps j] = _
    rw [hlen]
    have hct : content_type "json" = "application/json" := by decide
    rw [hct]
  · apply startsL_append
    apply startsL_append
    decide

/-! ## C9: POST routing and unknown operation names -/

/-- C9.  A POST request is routed by stripping the leading slash from the
request path and comparing the remainder verbatim against `ack`,
`classify`, `get_info`, `get_doc`; any other operation name falls through
every branch, so the handler writes nothing and returns normally. -/
theorem C9_unknown_post_op (fs : FS) (clf : ClfModel) (st : ServerState)
    (data : String) (chunks : List String) (p body : String)
    (hpost : sStartsWith data "POST" = true)
    (hpath : get_http_path data = .ok p)
    (hbody : recvall_body data chunks (get_http_contlength data) = .ok body)
    (hm : sDrop p 1 ∉ (["ack", "classify", "get_info", "get_doc"] : List String)) :
    handle_request fs clf st data chunks = (st, .ok []) := by
  have hne : data ≠ "" := by
    intro hd
    subst hd
    simp [sStartsWith, startsL] at hpost
  simp only [List.mem_cons, List.not_mem_nil, or_false, not_or] at hm
  obtain ⟨hm1, hm2, hm3, hm4⟩ := hm
  simp [handle_request, hne, hpath, hpost, hbody, hm1, hm2, hm3, hm4]

/-- C9 witness: `POST /bogus` with an empty body produces no response
bytes and no exception. -/
theorem C9_unknown_post_op_witness :
    handle_request fs0 clf0 st0 "POST /bogus HTTP/1.1\r\n\r\n" [] = (st0, .ok []) :=
  C9_unknown_post_op fs0 clf0 st0 "POST /bogus HTTP/1.1\r\n\r\n" [] "/bogus" ""
    (by decide) (by decide) (by decide) (by decide)

/-! ## C6: `:line:N` locator resolution -/

theorem readN_eq : ∀ (n : Nat) (l : List Char), readN l n = (pyLines l).getD n [] := by
  intro n
  induction n with
  | zero =>
    intro l
    rcases l with _ | ⟨c, rest⟩
    · rfl
    · rw [pyLines_cons]
      rfl
  | succ n ih =>
    intro l
    rcases l with _ | ⟨c, rest⟩
    · show readN ([] : List Char) n = _
      rw [ih []]
      rfl
    · rw [pyLines_cons]
      show readN (readlineL (c :: rest)).2 n = _
      rw [ih]
      rfl

/-- C6.  For a locator `<path>:line:N`, the `:line:` branch of
`__do_get_doc__` reads `N + 1` lines sequentially and sends the last line
read (`readN`); that line is the line at 0-based index `N` of the file when
the file has more than `N` lines, and the empty result of `readline` past
end-of-file otherwise. -/
theorem C6_line_locator (fs : FS) (st : ServerState) (loc f s : String) (n : Nat)
    (hc : sContains loc ":line:" = true)
    (hsplit : sSplitOn loc ":line:" = [f, s])
    (hparse : parsePyInt s = some (Int.ofNat n))
    (hex : fs.pathExists f = true) :
    do_get_doc fs st loc =
      .ok (send_as_json (.jobj (.ocons "content"
        (.jstr ⟨readN (fs.read f).data n⟩) .onil))) ∧
    (n < (pyLines (fs.read f).data).length →
      readN (fs.read f).data n = (pyLines (fs.read f).data).getD n []) ∧
    ((pyLines (fs.read f).data).length ≤ n → readN (fs.read f).data n = []) := by
  refine ⟨?_, fun _ => readN_eq n _, fun hge => ?_⟩
  · unfold do_get_doc
    rw [hc]
    simp only [if_true]
    rw [hsplit]
    show (match parsePyInt s with
      | none => PyResult.raised "ValueError"
      | some n =>
        if fs.pathExists f = true then
          PyResult.ok (send_as_json (.jobj (.ocons "content"
            (.jstr ⟨readN (fs.read f).data n.toNat⟩) .onil)))
        else PyResult.raised "IOError") = _
    rw [hparse]
    show (if fs.pathExists f = true then
        PyResult.ok (send_as_json (.jobj (.ocons "content"
          (.jstr ⟨readN (fs.read f).data (Int.ofNat n).toNat⟩) .onil)))
      else PyResult.raised "IOError") = _
    rw [if_pos hex]
    rfl
  · rw [readN_eq n _]
    exact List.getD_eq_default _ _ hge

/-- C6 witness: `a.txt:line:1` on a three-line file yields the second line
(with its newline); the in-range characterization holds there. -/
theorem C6_line_locator_witness :
    do_get_doc fs0 st0 "a.txt:line:1" =
      .ok (send_as_json (.jobj (.ocons "content"
        (.jstr ⟨readN (fs0.read "a.txt").data 1⟩) .onil))) ∧
    readN (fs0.read "a.txt").data 1 = (pyLines (fs0.read "a.txt").data).getD 1 [] :=
  have h := C6_line_locator fs0 st0 "a.txt:line:1" "a.txt" "1" 1
    (by decide) (by decide) (by decide) (by decide)
  ⟨h.1, h.2.1 (by decide)⟩

/-! ## C7: the three parallel sequences of a category record -/

theorem updateCat_updateCat (docs : List (String × CatRecord)) (cat : String)
    (f g : CatRecord → CatRecord) :
    updateCat (updateCat docs cat f) cat g = updateCat docs cat (fun r => g (f r)) := by
  induction docs with
  | nil => simp [updateCat]
  | cons p rest ih =>
    obtain ⟨c, r⟩ := p
    by_cases hc : c = cat
    · simp [updateCat, hc]
    · simp [updateCat, hc, ih]

theorem mem_updateCat {docs : List (String × CatRecord)} {cat c : String} {r : CatRecord}
    {f : CatRecord → CatRecord} (h : (c, r) ∈ updateCat docs cat f) :
    (c, r) ∈ docs ∨ (c = cat ∧ ∃ r0, r = f r0 ∧ (r0 = ⟨[], [], []⟩ ∨ (cat, r0) ∈ docs)) := by
  induction docs with
  | nil =>
    simp only [updateCat, List.mem_singleton, Prod.mk.injEq] at h
    exact Or.inr ⟨h.1, ⟨[], [], []⟩, h.2, Or.inl rfl⟩
  | cons p rest ih =>
    obtain ⟨c0, r0'⟩ := p
    by_cases hc : c0 = cat
    · subst hc
      simp only [updateCat, if_pos rfl] at h
      rcases List.mem_cons.mp h with he | ht
      · rcases Prod.mk.injEq .. ▸ he with ⟨h1, h2⟩
        exact Or.inr ⟨h1, r0', h2, Or.inr (List.mem_cons_self _ _)⟩
      · exact Or.inl (List.mem_cons_of_mem _ ht)
    · simp only [updateCat, if_neg hc] at h
      rcases List.mem_cons.mp h with he | ht
      · exact Or.inl (he ▸ List.mem_cons_self _ _)
      · rcases ih ht with hd | ⟨hceq, r1, hr1, hor⟩
        · exact Or.inl (List.mem_cons_of_mem _ hd)
        · exact Or.inr ⟨hceq, r1, hr1, hor.imp id (List.mem_cons_of_mem _)⟩

theorem mem_setCat {docs : List (String × CatRecord)} {cat c : String} {r newRec : CatRecord}
    (h : (c, r) ∈ setCat docs cat newRec) :
    (c, r) ∈ docs ∨ (c = cat ∧ r = newRec) := by
  induction docs with
  | nil =>
    simp only [setCat, List.mem_singleton, Prod.mk.injEq] at h
    exact Or.inr h
  | cons p rest ih =>
    obtain ⟨c0, r0⟩ := p
    by_cases hc : c0 = cat
    · subst hc
      simp only [setCat, if_pos rfl] at h
      rcases List.mem_cons.mp h with he | ht
      · rcases Prod.mk.injEq .. ▸ he with ⟨h1, h2⟩
        exact Or.inr ⟨h1, h2⟩
      · exact Or.inl (List.mem_cons_of_mem _ ht)
    · simp only [setCat, if_neg hc] at h
      rcases List.mem_cons.mp h with he | ht
      · exact Or.inl (he ▸ List.mem_cons_self _ _)
      · rcases ih ht with hd | hr2
        · exact Or.inl (List.mem_cons_of_mem _ hd)
        · exact Or.inr hr2

/-- Membership of a category key in the index. -/
def hasCat (docs : List (String × CatRecord)) (cat : String) : Bool :=
  docs.any (fun p => p.1 == cat)

theorem hasCat_setCat (docs : List (String × CatRecord)) (cat : String) (r : CatRecord) :
    hasCat (setCat docs cat r) cat = true := by
  induction docs with
  | nil => simp [setCat, hasCat]
  | cons p rest ih =>
    obtain ⟨c0, r0⟩ := p
    by_cases hc : c0 = cat
    · simp [setCat, hc, hasCat]
    · simp only [setCat, if_neg hc, hasCat, List.any_cons, Bool.or_eq_true]
      exact Or.inr ih

theorem hasCat_updateCat (docs : List (String × CatRecord)) (cat : String)
    (f : CatRecord → CatRecord) : hasCat (updateCat docs cat f) cat = true := by
  induction docs with
  | nil => simp [updateCat, hasCat]
  | cons p rest ih =>
    obtain ⟨c0, r0⟩ := p
    by_cases hc : c0 = cat
    · simp [updateCat, hc, hasCat]
    · simp only [updateCat, if_neg hc, hasCat, List.any_cons, Bool.or_eq_true]
      exact Or.inr ih

theorem updateCat_id (docs : List (String × CatRecord)) (cat : String)
    (h : hasCat docs cat = true) : updateCat docs cat (fun r => r) = docs := by
  induction docs with
  | nil => simp [hasCat] at h
  | cons p rest ih =>
    obtain ⟨c0, r0⟩ := p
    by_cases hc : c0 = cat
    · simp [updateCat, hc]
    · have h' : hasCat rest cat = true := by
        simp only [hasCat, List.any_cons, Bool.or_eq_true, beq_iff_eq] at h
        rcases h with he | ht
        · exact absurd he hc
        · exact ht
      simp [updateCat, hc, ih h']

theorem updateCat_setCat (docs : List (String × CatRecord)) (cat : String) (r0 : CatRecord)
    (f : CatRecord → CatRecord) :
    updateCat (setCat docs cat r0) cat f = setCat docs cat (f r0) := by
  induction docs with
  | nil => simp [setCat, updateCat]
  | cons p rest ih =>
    obtain ⟨c0, rr⟩ := p
    by_cases hc : c0 = cat
    · simp [setCat, updateCat, hc]
    · simp [setCat, updateCat, hc, ih]

theorem mapClf_ok (clf : ClfModel) : ∀ (lines : List (List Char)) (results : List Nat),
    mapClf clf lines = .ok results → results = lines.map (fun l => clfTopD clf ⟨l⟩) := by
  intro lines
  induction lines with
  | nil =>
    intro results h
    simp only [mapClf] at h
    injection h with h'
    rw [← h']
    rfl
  | cons l rest ih =>
    intro results h
    simp only [mapClf] at h
    cases ht : clfTop clf ⟨l⟩ with
    | error e => rw [ht] at h; cases h
    | ok v =>
      rw [ht] at h
      cases hm : mapClf clf rest with
      | error e2 => rw [hm] at h; cases h
      | ok vs =>
        rw [hm] at h
        injection h with h'
        rw [← h', List.map_cons, ih vs hm, clfTop_ok_eq ht]

/-- The record that `set_testset` builds for the label occurring at the
positions `idxs` of the in-memory test set. -/
def memRecOf (clf : ClfModel) (x_test : List String) (idxs : List Nat) : CatRecord :=
  { path := idxs.map (fun i => ":x_test:" ++ natRepr i),
    file := idxs.map (fun i => "doc_" ++ natRepr i),
    clf_result := idxs.map (fun i => clfTopD clf (x_test.getD i "")) }

/-- The record the `folder_label=False` builder assigns for one category
file: the three sequences are all indexed by the file's lines. -/
def lineRecOf (clf : ClfModel) (fs : FS) (file_path : String) : CatRecord :=
  { path := (List.range ((pyLines (fs.read file_path).data).map
      (fun l => clfTopD clf ⟨l⟩)).length).map (fun i => file_path ++ ":line:" ++ natRepr i),
    file := (List.range ((pyLines (fs.read file_path).data).map
      (fun l => clfTopD clf ⟨l⟩)).length).map (fun i => "doc_" ++ natRepr i),
    clf_result := (pyLines (fs.read file_path).data).map (fun l => clfTopD clf ⟨l⟩) }

/-- The record the `folder_label=True` builder accumulates for a category
directory over the kept (regular) files. -/
def folderRecOf (clf : ClfModel) (fs : FS) (cat_path : String) (files : List String) : CatRecord :=
  { path := files.map (fun f => posixJoin cat_path f),
    file := files,
    clf_result := files.map (fun f => clfTopD clf (fs.read (posixJoin cat_path f))) }

/-- Appending one batch of kept files to a `folder_label=True` record. -/
def appendKept (clf : ClfModel) (fs : FS) (cat_path : String) (rcd : CatRecord)
    (kept : List String) : CatRecord :=
  { path := rcd.path ++ kept.map (fun f => posixJoin cat_path f),
    file := rcd.file ++ kept,
    clf_result := rcd.clf_result ++ kept.map (fun f => clfTopD clf (fs.read (posixJoin cat_path f))) }

/-- Every record in the index built so far by `set_testset` is a
`memRecOf` over in-range indices. -/
def GoodMem (clf : ClfModel) (x_test : List String) (rcd : CatRecord) : Prop :=
  ∃ idxs : List Nat, (∀ i ∈ idxs, i < x_test.length) ∧ rcd = memRecOf clf x_test idxs

theorem stLoop_good (clf : ClfModel) (y_test x_full : List String) :
    ∀ (rest : List String) (idoc : Nat) (docs docs' : List (String × CatRecord)),
      x_full.drop idoc = rest →
      (∀ cat rcd, (cat, rcd) ∈ docs → GoodMem clf x_full rcd) →
      stLoop clf y_test idoc rest docs = (docs', none) →
      (∀ cat rcd, (cat, rcd) ∈ docs' → GoodMem clf x_full rcd) := by
  intro rest
  induction rest with
  | nil =>
    intro idoc docs docs' _ hinv hloop
    simp only [stLoop] at hloop
    injection hloop with h1 _
    exact h1 ▸ hinv
  | cons doc rest2 ih =>
    intro idoc docs docs' hdrop hinv hloop
    simp only [stLoop] at hloop
    cases hy : y_test.get? idoc with
    | none => rw [hy] at hloop; cases hloop
    | some cat =>
      rw [hy] at hloop
      cases hv : clfTop clf doc with
      | error e => rw [hv] at hloop; cases hloop
      | ok v =>
        rw [hv] at hloop
        have hget : x_full.get? idoc = some doc := by
          have h0 := List.get?_drop x_full idoc 0
          rw [hdrop] at h0
          simpa using h0.symm
        have hk : idoc < x_full.length := by
          rcases List.get?_eq_some.mp hget with ⟨h, _⟩
          exact h
        have hdoc : x_full.getD idoc "" = doc := by
          show (x_full.get? idoc).getD "" = doc
          rw [hget]
          rfl
        have hdrop2 : x_full.drop (idoc + 1) = rest2 := by
          have h1 : x_full.drop (idoc + 1) = (x_full.drop idoc).drop 1 := by
            rw [List.drop_drop]
          rw [h1, hdrop]
          rfl
        apply ih (idoc + 1) _ docs' hdrop2 ?_ hloop
        intro cat' rcd hmem
        rw [updateCat_updateCat, updateCat_updateCat] at hmem
        rcases mem_updateCat hmem with hd | ⟨_, r0, hr0, hor⟩
        · exact hinv _ _ hd
        · have hg0 : GoodMem clf x_full r0 := by
            rcases hor with heq | hm
            · exact ⟨[], by simp, heq ▸ rfl⟩
            · exact hinv _ _ hm
          obtain ⟨idxs, hb, hrec⟩ := hg0
          subst hr0
          refine ⟨idxs ++ [idoc], ?_, ?_⟩
          · intro i hi
            rcases List.mem_append.mp hi with hii | hii
            · exact hb i hii
            · rw [List.mem_singleton.mp hii]
              exact hk
          · show ({ path := r0.path ++ [":x_test:" ++ natRepr idoc],
                    file := r0.file ++ ["doc_" ++ natRepr idoc],
                    clf_result := r0.clf_result ++ [v] } : CatRecord) = _
            rw [hrec]
            have hveq : v = clfTopD clf (x_full.getD idoc "") := by
              rw [hdoc]
              exact clfTop_ok_eq hv
            simp only [memRecOf, List.map_append, List.map_cons, List.map_nil, hveq]

/-- Every record in an index built by the `folder_label=False` walk is the
line record of some regular file. -/
def GoodLine (clf : ClfModel) (fs : FS) (rcd : CatRecord) : Prop :=
  ∃ fp, fs.isfile fp = true ∧ rcd = lineRecOf clf fs fp

theorem ffalse_good (clf : ClfModel) (fs : FS) (tp : String) :
    ∀ (files : List String) (docs docs' : List (String × CatRecord)),
      (∀ cat rcd, (cat, rcd) ∈ docs → GoodLine clf fs rcd) →
      setFromFilesFalse clf fs tp files docs = (docs', none) →
      (∀ cat rcd, (cat, rcd) ∈ docs' → GoodLine clf fs rcd) := by
  intro files
  induction files with
  | nil =>
    intro docs docs' hinv hloop
    simp only [setFromFilesFalse] at hloop
    injection hloop with h1 _
    exact h1 ▸ hinv
  | cons f rest ih =>
    intro docs docs' hinv hloop
    simp only [setFromFilesFalse] at hloop
    by_cases hf : fs.isfile (posixJoin tp f) = true
    · rw [if_pos hf] at hloop
      cases hm : mapClf clf (pyLines (fs.read (posixJoin tp f)).data) with
      | error e => rw [hm] at hloop; cases hloop
      | ok results =>
        rw [hm] at hloop
        apply ih _ docs' ?_ hloop
        intro cat rcd hmem
        rcases mem_setCat hmem with hd | ⟨_, hrec⟩
        · exact hinv _ _ hd
        · refine ⟨posixJoin tp f, hf, ?_⟩
          rw [hrec]
          have hres := mapClf_ok clf _ results hm
          simp only [lineRecOf, hres]
    · rw [if_neg hf] at hloop
      exact ih _ docs' hinv hloop

theorem folderInner_char (clf : ClfModel) (fs : FS) (cp cat : String) :
    ∀ (fl : List String) (docs docs' : List (String × CatRecord)),
      hasCat docs cat = true →
      folderInner clf fs cp cat fl docs = (docs', none) →
      ∃ kept, (∀ f ∈ kept, fs.isfile (posixJoin cp f) = true) ∧
        docs' = updateCat docs cat (fun r => appendKept clf fs cp r kept) := by
  intro fl
  induction fl with
  | nil =>
    intro docs docs' hk hloop
    simp only [folderInner] at hloop
    injection hloop with h1 _
    refine ⟨[], by simp, ?_⟩
    have hid : (fun r => appendKept clf fs cp r []) = fun r : CatRecord => r := by
      funext r
      simp [appendKept]
    rw [hid, updateCat_id docs cat hk, h1]
  | cons f rest ih =>
    intro docs docs' hk hloop
    simp only [folderInner] at hloop
    by_cases hf : fs.isfile (posixJoin cp f) = true
    · rw [if_pos hf] at hloop
      cases hv : clfTop clf (fs.read (posixJoin cp f)) with
      | error e => rw [hv] at hloop; cases hloop
      | ok v =>
        rw [hv] at hloop
        have hloop2 : folderInner clf fs cp cat rest
            (updateCat (updateCat (updateCat docs cat
              (fun r => { r with path := r.path ++ [posixJoin cp f] })) cat
              (fun r => { r with file := r.file ++ [f] })) cat
              (fun r => { r with clf_result := r.clf_result ++ [v] })) = (docs', none) := hloop
        obtain ⟨kept', hkept', hdocs'⟩ := ih _ docs' (hasCat_updateCat _ _ _) hloop2
        rw [updateCat_updateCat, updateCat_updateCat, updateCat_updateCat] at hdocs'
        refine ⟨f :: kept', ?_, ?_⟩
        · intro g hg
          rcases List.mem_cons.mp hg with hge | hgr
          · exact hge ▸ hf
          · exact hkept' g hgr
        · rw [hdocs']
          congr 1
          funext r
          have hveq : v = clfTopD clf (fs.read (posixJoin cp f)) := clfTop_ok_eq hv
          simp only [appendKept, List.map_cons, hveq, List.append_assoc, List.cons_append,
            List.nil_append]
    · rw [if_neg hf] at hloop
      exact ih docs docs' hk hloop

/-- Every record in an index built by the `folder_label=True` walk is the
folder record of some category directory over its kept files. -/
def GoodFolder (clf : ClfModel) (fs : FS) (rcd : CatRecord) : Prop :=
  ∃ cp files, (∀ f ∈ files, fs.isfile (posixJoin cp f) = true) ∧
    rcd = folderRecOf clf fs cp files

theorem ftrue_good (clf : ClfModel) (fs : FS) (tp : String) :
    ∀ (cats : List String) (docs docs' : List (String × CatRecord)),
      (∀ cat rcd, (cat, rcd) ∈ docs → GoodFolder clf fs rcd) →
      setFromFilesTrue clf fs tp cats docs = (docs', none) →
      (∀ cat rcd, (cat, rcd) ∈ docs' → GoodFolder clf fs rcd) := by
  intro cats
  induction cats with
  | nil =>
    intro docs docs' hinv hloop
    simp only [setFromFilesTrue] at hloop
    injection hloop with h1 _
    exact h1 ▸ hinv
  | cons cat rest ih =>
    intro docs docs' hinv hloop
    simp only [setFromFilesTrue] at hloop
    by_cases hf : fs.isfile (posixJoin tp cat) = true
    · rw [if_pos hf] at hloop
      exact ih docs docs' hinv hloop
    · rw [if_neg hf] at hloop
      cases hin : folderInner clf fs (posixJoin tp cat) cat
          (sortStrs (fs.listdir (posixJoin tp cat))) (setCat docs cat ⟨[], [], []⟩) with
      | mk docs2 err2 =>
        rw [hin] at hloop
        cases err2 with
        | some e => cases hloop
        | none =>
          obtain ⟨kept, hkept, hdocs2⟩ :=
            folderInner_char clf fs (posixJoin tp cat) cat _ _ docs2
              (hasCat_setCat docs cat _) hin
          apply ih docs2 docs' ?_ hloop
          intro c r hm
          rw [hdocs2, updateCat_setCat] at hm
          rcases mem_setCat hm with hd | ⟨_, hrec⟩
          · exact hinv _ _ hd
          · refine ⟨posixJoin tp cat, kept, hkept, ?_⟩
            rw [hrec]
            simp [appendKept, folderRecOf]

/-- C7.  After any successful test-corpus build, every category record's
three sequences have equal length and are built together from one source
sequence, so `clf_result[i]` is the classification of the document that
`path[i]`/`file[i]` designate: for `set_testset` the three sequences are
maps of one list of in-range document indices (locator `:x_test:i`, display
name `doc_i`, result for document `i`); for `set_testset_from_files` with
`folder_label=False` they are indexed by the lines of one category file
(locator `<file>:line:i`, result for line `i`); with `folder_label=True`
they are maps of the kept regular files of one category directory. -/
theorem C7_parallel_sequences :
    (∀ (clf : ClfModel) (x y : List String) (st' : ServerState) (b : Bool),
      set_testset clf x y = (st', .ok b) →
      ∀ cat rcd, (cat, rcd) ∈ st'.docs →
        rcd.path.length = rcd.file.length ∧ rcd.file.length = rcd.clf_result.length ∧
        ∃ idxs : List Nat, (∀ i ∈ idxs, i < x.length) ∧ rcd = memRecOf clf x idxs) ∧
    (∀ (clf : ClfModel) (fs : FS) (tp : String) (st' : ServerState) (b : Bool),
      set_testset_from_files clf fs tp false = (st', .ok b) →
      ∀ cat rcd, (cat, rcd) ∈ st'.docs →
        rcd.path.length = rcd.file.length ∧ rcd.file.length = rcd.clf_result.length ∧
        ∃ fp, fs.isfile fp = true ∧ rcd = lineRecOf clf fs fp) ∧
    (∀ (clf : ClfModel) (fs : FS) (tp : String) (st' : ServerState) (b : Bool),
      set_testset_from_files clf fs tp true = (st', .ok b) →
      ∀ cat rcd, (cat, rcd) ∈ st'.docs →
        rcd.path.length = rcd.file.length ∧ rcd.file.length = rcd.clf_result.length ∧
        ∃ cp files, (∀ f ∈ files, fs.isfile (posixJoin cp f) = true) ∧
          rcd = folderRecOf clf fs cp files) := by
  refine ⟨?_, ?_, ?_⟩
  · intro clf x y st' b h cat rcd hm
    have hgood : GoodMem clf x rcd := by
      simp only [set_testset] at h
      cases hloop : stLoop clf y 0 x ((pySet y).map fun c => (c, (⟨[], [], []⟩ : CatRecord))) with
      | mk docs err =>
        rw [hloop] at h
        cases err with
        | some e => simp at h
        | none =>
          injection h with h1 _
          rw [← h1] at hm
          refine stLoop_good clf y x x 0 _ docs rfl ?_ hloop cat rcd hm
          intro cat0 rcd0 hm0
          rcases List.mem_map.mp hm0 with ⟨a, _, heq⟩
          rcases Prod.mk.injEq .. ▸ heq with ⟨_, h2⟩
          exact ⟨[], by simp, by rw [← h2]; rfl⟩
    obtain ⟨idxs, hb, hrec⟩ := hgood
    subst hrec
    exact ⟨by simp [memRecOf], by simp [memRecOf], idxs, hb, rfl⟩
  · intro clf fs tp st' b h cat rcd hm
    have hgood : GoodLine clf fs rcd := by
      simp only [set_testset_from_files, Bool.false_eq_true, if_false] at h
      cases hloop : setFromFilesFalse clf fs tp (fs.listdir tp) [] with
      | mk docs err =>
        rw [hloop] at h
        cases err with
        | some e => simp at h
        | none =>
          injection h with h1 _
          rw [← h1] at hm
          refine ffalse_good clf fs tp (fs.listdir tp) [] docs ?_ hloop cat rcd hm
          intro _ _ hm0
          exact absurd hm0 (List.not_mem_nil _)
    obtain ⟨fp, hfp, hrec⟩ := hgood
    subst hrec
    exact ⟨by simp [lineRecOf], by simp [lineRecOf], fp, hfp, rfl⟩
  · intro clf fs tp st' b h cat rcd hm
    have hgood : GoodFolder clf fs rcd := by
      simp only [set_testset_from_files, if_true] at h
      cases hloop : setFromFilesTrue clf fs tp (fs.listdir tp) [] with
      | mk docs err =>
        rw [hloop] at h
        cases err with
        | some e => simp at h
        | none =>
          injection h with h1 _
          rw [← h1] at hm
          refine ftrue_good clf fs tp (fs.listdir tp) [] docs ?_ hloop cat rcd hm
          intro _ _ hm0
          exact absurd hm0 (List.not_mem_nil _)
    obtain ⟨cp, files, hfiles, hrec⟩ := hgood
    subst hrec
    exact ⟨by simp [folderRecOf], by simp [folderRecOf], cp, files, hfiles, rfl⟩

/-- C7 witness: building from memory with one document and one label
yields the single category record with its three singleton sequences. -/
theorem C7_parallel_sequences_witness :
    ("A", (⟨[":x_test:0"], ["doc_0"], [0]⟩ : CatRecord)) ∈ (set_testset clf0 ["d"] ["A"]).1.docs ∧
    ([":x_test:0"] : List String).length = (["doc_0"] : List String).length ∧
    (["doc_0"] : List String).length = ([0] : List Nat).length :=
  have happ := C7_parallel_sequences.1 clf0 ["d"] ["A"] (set_testset clf0 ["d"] ["A"]).1 true
    (by decide) "A" ⟨[":x_test:0"], ["doc_0"], [0]⟩ (by decide)
  ⟨by decide, happ.1, happ.2.1⟩
